import Mathlib

/-!
Verification of the BSP lump-access core of `bspinfo` (src/main.rs).

The byte source (a `File` behind `Read + Seek`) is modelled as a
`List Nat` of bytes together with an explicit cursor position; seeking to an
absolute offset always succeeds (as it does on a `File` or `Cursor`, even past
end-of-file), while `read_exact` of `n` bytes at position `p` succeeds exactly
when `p + n` bytes exist.  The external LZMA codec (`lzma_rs`) and the zip
central-directory reader (the `zip` crate) are third-party libraries, not code
of this repository; they are modelled as parameters, with their documented
contracts stated as explicit hypotheses where a claim needs them.
-/

/-- LumpInfo mirrors `struct LumpInfo` (src/main.rs:91-97): four little-endian
`u32` fields, kept as `Nat` values (the parser only ever produces values
below 2^32). -/
structure LumpInfo where
  fileofs : Nat
  filelen : Nat
  version : Nat
  uncompressed_size : Nat
  deriving DecidableEq

/-- BspHeader mirrors `struct BspHeader` (src/main.rs:82-88): ident, version,
the 64 lump directory entries in ordinal order, and the map revision. -/
structure BspHeader where
  ident : Nat
  version : Nat
  lumps : List LumpInfo
  map_revision : Nat
  deriving DecidableEq

/-- Little-endian 32-bit value assembled from the four bytes of `data`
starting at `pos` (out-of-range bytes default to 0; `parseU32` only uses this
when all four bytes exist). -/
def u32At (data : List Nat) (pos : Nat) : Nat :=
  data.getD pos 0 + 256 * data.getD (pos + 1) 0 + 65536 * data.getD (pos + 2) 0 +
    16777216 * data.getD (pos + 3) 0

/-- Reading one little-endian `u32` at `pos`, as binrw / `read_u32` do: succeeds
with the value and the advanced position iff four bytes are available. -/
def parseU32 (data : List Nat) (pos : Nat) : Option (Nat × Nat) :=
  if pos + 4 ≤ data.length then some (u32At data pos, pos + 4) else none

/-- Sequential decode of one 16-byte `LumpInfo` record, as `#[derive(BinRead)]`
produces: four consecutive little-endian `u32` reads. -/
def parseLumpInfo (data : List Nat) (pos : Nat) : Option (LumpInfo × Nat) := do
  let (ofs, p1) ← parseU32 data pos
  let (len, p2) ← parseU32 data p1
  let (ver, p3) ← parseU32 data p2
  let (usz, p4) ← parseU32 data p3
  pure (⟨ofs, len, ver, usz⟩, p4)

/-- Sequential decode of `k` consecutive `LumpInfo` records, as binrw decodes
the `[LumpInfo; HEADER_LUMPS]` array field. -/
def parseLumps (data : List Nat) : Nat → Nat → Option (List LumpInfo × Nat)
  | pos, 0 => some ([], pos)
  | pos, k + 1 => do
    let (l, p1) ← parseLumpInfo data pos
    let (ls, p2) ← parseLumps data p1 k
    pure (l :: ls, p2)

/-- HEADER_LUMPS constant (src/main.rs:79). -/
def HEADER_LUMPS : Nat := 64

/-- Sequential decode of the whole header, as `BspHeader::read_le`
(src/main.rs:107) performs it: ident, version, 64 lump records, map revision,
all little-endian, failing whenever the source runs out of bytes.  Also
returns the final cursor position (binrw leaves the reader there). -/
def parseBspHeader (data : List Nat) : Option (BspHeader × Nat) := do
  let (ident, p1) ← parseU32 data 0
  let (ver, p2) ← parseU32 data p1
  let (lumps, p3) ← parseLumps data p2 HEADER_LUMPS
  let (rev, p4) ← parseU32 data p3
  pure (⟨ident, ver, lumps, rev⟩, p4)

/-- Direct (non-sequential) description of the 16-byte record at `pos`, used to
characterise the sequential parser. -/
def lumpAt (data : List Nat) (pos : Nat) : LumpInfo :=
  ⟨u32At data pos, u32At data (pos + 4), u32At data (pos + 8), u32At data (pos + 12)⟩

/-- Direct description of `k` consecutive records starting at `pos`. -/
def entriesFrom (data : List Nat) : Nat → Nat → List LumpInfo
  | _, 0 => []
  | pos, k + 1 => lumpAt data pos :: entriesFrom data (pos + 16) k

/-- The LZMA codec of `lzma_rs::lzma_decompress_with_options` modelled as a
parameter: input is the remaining byte stream and the provided unpacked size,
output is `none` on any codec error. -/
structure LzmaCodec where
  decompress : List Nat → Nat → Option (List Nat)

/-- Documented contract of `lzma_rs` under
`UnpackedSize::UseProvided(Some n)` with `allow_incomplete: false`: a
successful decompression produces exactly `n` bytes. -/
def LzmaCodec.Exact (c : LzmaCodec) : Prop :=
  ∀ s n out, c.decompress s n = some out → out.length = n

/-- The byte string `b"LZMA"` (src/main.rs:138). -/
def LZMA_TAG : List Nat := [76, 90, 77, 65]

/-- Operations `get_lump` performs on the underlying byte source, recorded in
program order: an absolute seek, an exact read of `n` bytes, or handing the
rest of the stream to the LZMA decoder. -/
inductive SrcOp where
  | seek : Nat → SrcOp
  | read : Nat → SrcOp
  | readStream : SrcOp
  deriving DecidableEq

/-- Exact read of `n` bytes at absolute position `pos`, as `read_exact` after a
seek: succeeds iff `pos + n` bytes exist, never returns a short buffer. -/
def readBytesAt (data : List Nat) (pos n : Nat) : Option (List Nat) :=
  if pos + n ≤ data.length then some ((data.drop pos).take n) else none

/-- Shallow embedding of `BspFile::get_lump` (src/main.rs:120-169).  `i` is the
lump ordinal (`lump as usize`).  Returns the `Option<Vec<u8>>` result together
with the trace of operations performed on the byte source.  Differences from
the text of the source are only representational: seeking on the source always
succeeds (`Cursor`/`File` semantics, even past EOF), so the `seek(...).ok()?`
on line 127-129 is recorded but cannot fail; `Vec::with_capacity` on lines
134-137 only pre-allocates and has no observable effect. -/
def getLump (codec : LzmaCodec) (hdr : BspHeader) (data : List Nat) (i : Nat) :
    Option (List Nat) × List SrcOp :=
  match hdr.lumps[i]? with
  | none => (none, [])
  | some lump =>
    if lump.fileofs = 0 ∨ lump.filelen = 0 then
      (none, [])
    else if lump.uncompressed_size ≠ 0 then
      -- Compressed path: tag, actual_size, lzma_size, then the codec reads
      -- the remaining stream (a BufReader over the rest of the source).
      match readBytesAt data lump.fileofs 4 with
      | none => (none, [SrcOp.seek lump.fileofs, SrcOp.read 4])
      | some tag =>
        if tag ≠ LZMA_TAG then
          (none, [SrcOp.seek lump.fileofs, SrcOp.read 4])
        else
          match parseU32 data (lump.fileofs + 4) with
          | none => (none, [SrcOp.seek lump.fileofs, SrcOp.read 4, SrcOp.read 4])
          | some (actual_size, p1) =>
            match parseU32 data p1 with
            | none => (none, [SrcOp.seek lump.fileofs, SrcOp.read 4, SrcOp.read 4, SrcOp.read 4])
            | some (_lzma_size, p2) =>
              match codec.decompress (data.drop p2) actual_size with
              | none =>
                (none, [SrcOp.seek lump.fileofs, SrcOp.read 4, SrcOp.read 4,
                  SrcOp.read 4, SrcOp.readStream])
              | some buf =>
                (some buf, [SrcOp.seek lump.fileofs, SrcOp.read 4, SrcOp.read 4,
                  SrcOp.read 4, SrcOp.readStream])
    else
      -- Uncompressed path: read exactly filelen bytes.
      match readBytesAt data lump.fileofs lump.filelen with
      | none => (none, [SrcOp.seek lump.fileofs, SrcOp.read lump.filelen])
      | some buf => (some buf, [SrcOp.seek lump.fileofs, SrcOp.read lump.filelen])

/-- One entry of the embedded pak archive as the `zip` crate exposes it through
`by_index_raw` without extraction: a name and the stored CRC-32. -/
structure ZipEntry where
  name : List Nat
  crc32 : Nat
  deriving DecidableEq

/-- The zip central-directory reader (`ZipArchive::new`) modelled as a
parameter: `none` exactly when the buffer is not a valid archive. -/
structure ZipModel where
  parse : List Nat → Option (List ZipEntry)

/-- Shallow embedding of the `"files"` branch of `main` (src/main.rs:191-200):
open the resolved PAKFILE buffer as a zip archive, then for each index
`i in 0..zip.len()` take entry `i` raw and emit its name and CRC-32.  An
invalid archive is an error (`ZipArchive::new` returns `Err`; `main` unwraps
it, which is CLI glue outside the core). -/
def listPakFiles (zm : ZipModel) (buf : List Nat) : Option (List (List Nat × Nat)) :=
  match zm.parse buf with
  | none => none
  | some entries =>
    some ((List.range entries.length).map fun i =>
      ((entries.getD i ⟨[], 0⟩).name, (entries.getD i ⟨[], 0⟩).crc32))

/-! ### Characterisation of the sequential header parser -/

theorem parseLumpInfo_eq (data : List Nat) (pos : Nat) :
    parseLumpInfo data pos =
      if pos + 16 ≤ data.length then some (lumpAt data pos, pos + 16) else none := by
  by_cases h : pos + 16 ≤ data.length
  · have h1 : pos + 4 ≤ data.length := by omega
    have h2 : pos + 4 + 4 ≤ data.length := by omega
    have h3 : pos + 4 + 4 + 4 ≤ data.length := by omega
    have h4 : pos + 4 + 4 + 4 + 4 ≤ data.length := by omega
    have e2 : pos + 4 + 4 = pos + 8 := by omega
    have e3 : pos + 4 + 4 + 4 = pos + 12 := by omega
    have e4 : pos + 4 + 4 + 4 + 4 = pos + 16 := by omega
    simp only [parseLumpInfo, parseU32, if_pos h1, if_pos h2, if_pos h3, if_pos h4,
      Option.bind_eq_bind, Option.some_bind, if_pos h, lumpAt, e2, e3, e4]
    rfl
  · have h1 : ¬(pos + 16 ≤ data.length) := h
    simp only [parseLumpInfo, parseU32, if_neg h1]
    by_cases c1 : pos + 4 ≤ data.length
    · by_cases c2 : pos + 4 + 4 ≤ data.length
      · by_cases c3 : pos + 4 + 4 + 4 ≤ data.length
        · have c4 : ¬(pos + 4 + 4 + 4 + 4 ≤ data.length) := by omega
          simp [if_pos c1, if_pos c2, if_pos c3, if_neg c4]
        · simp [if_pos c1, if_pos c2, if_neg c3]
      · simp [if_pos c1, if_neg c2]
    · simp [if_neg c1]

theorem parseLumps_success (data : List Nat) :
    ∀ (k pos : Nat), pos + 16 * k ≤ data.length →
      parseLumps data pos k = some (entriesFrom data pos k, pos + 16 * k) := by
  intro k
  induction k with
  | zero => intro pos _; simp [parseLumps, entriesFrom]
  | succ k ih =>
    intro pos h
    have h16 : pos + 16 ≤ data.length := by omega
    have hrest : (pos + 16) + 16 * k ≤ data.length := by omega
    simp only [parseLumps, parseLumpInfo_eq, if_pos h16, Option.bind_eq_bind,
      Option.some_bind, ih (pos + 16) hrest, entriesFrom]
    have : pos + 16 + 16 * k = pos + 16 * (k + 1) := by omega
    rw [this]
    rfl

theorem parseLumps_fail (data : List Nat) :
    ∀ (k pos : Nat), 1 ≤ k → data.length < pos + 16 * k →
      parseLumps data pos k = none := by
  intro k
  induction k with
  | zero => intro pos h; omega
  | succ k ih =>
    intro pos _ h
    by_cases h16 : pos + 16 ≤ data.length
    · have hk : 1 ≤ k := by
        by_contra hk0
        have : k = 0 := by omega
        omega
      have : data.length < (pos + 16) + 16 * k := by omega
      simp only [parseLumps, parseLumpInfo_eq, if_pos h16, Option.bind_eq_bind,
        Option.some_bind, ih (pos + 16) hk this]
      rfl
    · simp only [parseLumps, parseLumpInfo_eq, if_neg h16]
      rfl

theorem entriesFrom_length (data : List Nat) :
    ∀ (k pos : Nat), (entriesFrom data pos k).length = k := by
  intro k
  induction k with
  | zero => intro pos; simp [entriesFrom]
  | succ k ih => intro pos; simp [entriesFrom, ih]

theorem entriesFrom_getElem? (data : List Nat) :
    ∀ (k pos i : Nat), i < k →
      (entriesFrom data pos k)[i]? = some (lumpAt data (pos + 16 * i)) := by
  intro k
  induction k with
  | zero => intro pos i h; omega
  | succ k ih =>
    intro pos i h
    cases i with
    | zero => simp [entriesFrom]
    | succ i =>
      have hi : i < k := by omega
      simp only [entriesFrom, List.getElem?_cons_succ, ih (pos + 16) i hi]
      have : pos + 16 + 16 * i = pos + 16 * (i + 1) := by omega
      rw [this]

/-- C6: header parsing decodes exactly 4 + 4 + 64 × 16 + 4 = 1036 bytes in
little-endian order into magic, version, 64 sixteen-byte directory entries in
fixed ordinal order (entry `i` at byte offset `8 + 16 * i`), and revision,
leaving the cursor at 1036; for every source with fewer than 1036 bytes it
fails with `none` and no partial header is produced. -/
theorem c6_header_decode (data : List Nat) :
    (data.length < 1036 → parseBspHeader data = none) ∧
    (1036 ≤ data.length →
      parseBspHeader data =
        some (⟨u32At data 0, u32At data 4, entriesFrom data 8 64, u32At data 1032⟩, 1036) ∧
      (entriesFrom data 8 64).length = 64 ∧
      ∀ i, i < 64 → (entriesFrom data 8 64)[i]? = some (lumpAt data (8 + 16 * i))) := by
  constructor
  · intro hshort
    by_cases c1 : 0 + 4 ≤ data.length
    · by_cases c2 : 4 + 4 ≤ data.length
      · by_cases c3 : 8 + 16 * 64 ≤ data.length
        · have c4 : ¬(1032 + 4 ≤ data.length) := by omega
          simp only [parseBspHeader, parseU32, if_pos c1, Option.bind_eq_bind,
            Option.some_bind, HEADER_LUMPS]
          have e1 : (0 : Nat) + 4 = 4 := by omega
          rw [e1]
          simp only [if_pos c2]
          have e2 : (4 : Nat) + 4 = 8 := by omega
          rw [e2]
          simp only [Option.some_bind, parseLumps_success data 64 8 c3]
          have e3 : (8 : Nat) + 16 * 64 = 1032 := by omega
          rw [e3]
          simp only [Option.some_bind, if_neg c4]
          rfl
        · have hfail : parseLumps data 8 64 = none := by
            apply parseLumps_fail data 64 8 (by omega)
            omega
          simp only [parseBspHeader, parseU32, if_pos c1, Option.bind_eq_bind,
            Option.some_bind, HEADER_LUMPS]
          have e1 : (0 : Nat) + 4 = 4 := by omega
          rw [e1]
          simp only [if_pos c2]
          have e2 : (4 : Nat) + 4 = 8 := by omega
          rw [e2]
          simp only [Option.some_bind, hfail]
          rfl
      · simp only [parseBspHeader, parseU32, if_pos c1, Option.bind_eq_bind,
          Option.some_bind]
        have e1 : (0 : Nat) + 4 = 4 := by omega
        rw [e1]
        simp only [if_neg c2]
        rfl
    · simp only [parseBspHeader, parseU32, if_neg c1]
      rfl
  · intro h
    refine ⟨?_, entriesFrom_length data 64 8, ?_⟩
    · have c1 : 0 + 4 ≤ data.length := by omega
      have c2 : 4 + 4 ≤ data.length := by omega
      have c3 : 8 + 16 * 64 ≤ data.length := by omega
      have c4 : 1032 + 4 ≤ data.length := by omega
      simp only [parseBspHeader, parseU32, if_pos c1, Option.bind_eq_bind,
        Option.some_bind, HEADER_LUMPS]
      have e1 : (0 : Nat) + 4 = 4 := by omega
      rw [e1]
      simp only [if_pos c2]
      have e2 : (4 : Nat) + 4 = 8 := by omega
      rw [e2]
      simp only [Option.some_bind, parseLumps_success data 64 8 c3]
      have e3 : (8 : Nat) + 16 * 64 = 1032 := by omega
      rw [e3]
      simp only [Option.some_bind, if_pos c4]
      rfl
    · intro i hi
      rw [entriesFrom_getElem? data 64 8 i hi]

/-- C6 witness: on the all-zero 1036-byte source the parser succeeds with the
all-zero header and final position 1036, and on a 1035-byte source it fails. -/
theorem c6_header_decode_witness :
    parseBspHeader (List.replicate 1036 0) =
      some (⟨u32At (List.replicate 1036 0) 0, u32At (List.replicate 1036 0) 4,
        entriesFrom (List.replicate 1036 0) 8 64, u32At (List.replicate 1036 0) 1032⟩, 1036) ∧
    parseBspHeader (List.replicate 1035 0) = none := by
  constructor
  · exact ((c6_header_decode (List.replicate 1036 0)).2
      (by rw [List.length_replicate])).1
  · exact (c6_header_decode (List.replicate 1035 0)).1
      (by rw [List.length_replicate]; omega)

/-! ### Lump resolution -/

/-- C3: for every directory entry with `fileofs = 0` or `filelen = 0`,
`get_lump` returns `None` (the absent signal) regardless of the entry's other
fields, and the trace of operations on the byte source is empty: no seek and
no read is performed. -/
theorem c3_absent_no_io (codec : LzmaCodec) (hdr : BspHeader) (data : List Nat)
    (i : Nat) (lump : LumpInfo) (hl : hdr.lumps[i]? = some lump)
    (h : lump.fileofs = 0 ∨ lump.filelen = 0) :
    getLump codec hdr data i = (none, []) := by
  simp only [getLump, hl, if_pos h]

/-- C3 witness: a concrete entry with `fileofs = 0` but nonzero `filelen` and
nonzero `uncompressed_size` resolves to `None` with an empty operation
trace. -/
theorem c3_absent_no_io_witness :
    getLump ⟨fun s n => some (s.take n)⟩
      ⟨0, 0, [⟨0, 5, 0, 7⟩], 0⟩ [1, 2, 3, 4, 5, 6] 0 = (none, []) :=
  c3_absent_no_io ⟨fun s n => some (s.take n)⟩ ⟨0, 0, [⟨0, 5, 0, 7⟩], 0⟩
    [1, 2, 3, 4, 5, 6] 0 ⟨0, 5, 0, 7⟩ rfl (Or.inl rfl)

/-- C4: for a present entry with `uncompressed_size = 0` (the raw path),
resolution returns exactly the `filelen` bytes at offset `fileofs` when the
source holds them, and fails with `None` (never a shorter buffer) when the
source holds fewer than `fileofs + filelen` bytes. -/
theorem c4_raw_exact (codec : LzmaCodec) (hdr : BspHeader) (data : List Nat)
    (i : Nat) (lump : LumpInfo) (hl : hdr.lumps[i]? = some lump)
    (ho : lump.fileofs ≠ 0) (hf : lump.filelen ≠ 0)
    (hu : lump.uncompressed_size = 0) :
    (lump.fileofs + lump.filelen ≤ data.length →
      (getLump codec hdr data i).1 = some ((data.drop lump.fileofs).take lump.filelen) ∧
      ((data.drop lump.fileofs).take lump.filelen).length = lump.filelen) ∧
    (data.length < lump.fileofs + lump.filelen →
      (getLump codec hdr data i).1 = none) := by
  have hno : ¬(lump.fileofs = 0 ∨ lump.filelen = 0) := by
    intro hc; cases hc <;> contradiction
  have hnu : ¬(lump.uncompressed_size ≠ 0) := by simp [hu]
  constructor
  · intro hfit
    constructor
    · simp only [getLump, hl, if_neg hno, if_neg hnu, readBytesAt, if_pos hfit]
    · rw [List.length_take, List.length_drop]
      omega
  · intro hshort
    have : ¬(lump.fileofs + lump.filelen ≤ data.length) := by omega
    simp only [getLump, hl, if_neg hno, if_neg hnu, readBytesAt, if_neg this]

/-- C4 witness: a raw entry at offset 1 with length 3 over a six-byte source
resolves to exactly the three bytes at offset 1, and over the truncated
three-byte source it resolves to `None`. -/
theorem c4_raw_exact_witness :
    (getLump ⟨fun s n => some (s.take n)⟩ ⟨0, 0, [⟨1, 3, 0, 0⟩], 0⟩
        [10, 20, 30, 40, 50, 60] 0).1 = some [20, 30, 40] ∧
    (getLump ⟨fun s n => some (s.take n)⟩ ⟨0, 0, [⟨1, 3, 0, 0⟩], 0⟩
        [10, 20, 30] 0).1 = none := by
  constructor
  · have h := (c4_raw_exact ⟨fun s n => some (s.take n)⟩ ⟨0, 0, [⟨1, 3, 0, 0⟩], 0⟩
      [10, 20, 30, 40, 50, 60] 0 ⟨1, 3, 0, 0⟩ rfl (by decide) (by decide) rfl).1
      (by decide)
    rw [h.1]
    rfl
  · exact (c4_raw_exact ⟨fun s n => some (s.take n)⟩ ⟨0, 0, [⟨1, 3, 0, 0⟩], 0⟩
      [10, 20, 30] 0 ⟨1, 3, 0, 0⟩ rfl (by decide) (by decide) rfl).2 (by decide)

/-- Concrete codec used to instantiate witnesses and counterexamples: it
"decompresses" a stream to its first `n` bytes and fails when the stream is
too short, so it satisfies the `lzma_rs` success contract
(`LzmaCodec.Exact`). -/
def takeCodec : LzmaCodec :=
  ⟨fun s n => if n ≤ s.length then some (s.take n) else none⟩

theorem takeCodec_exact : takeCodec.Exact := by
  intro s n out h
  simp only [takeCodec] at h
  by_cases hn : n ≤ s.length
  · rw [if_pos hn] at h
    cases h
    rw [List.length_take]
    omega
  · rw [if_neg hn] at h
    cases h

/-- C2 (amended): for every present compressed entry whose four bytes at the
lump offset differ from the `b"LZMA"` tag, `get_lump` yields `None` — the same
value as the absent signal, not a distinguishable error — and never returns
those bytes (or any bytes) as raw lump content. -/
theorem c2_tag_mismatch_rejected (codec : LzmaCodec) (hdr : BspHeader)
    (data : List Nat) (i : Nat) (lump : LumpInfo) (tag : List Nat)
    (hl : hdr.lumps[i]? = some lump) (ho : lump.fileofs ≠ 0)
    (hf : lump.filelen ≠ 0) (hu : lump.uncompressed_size ≠ 0)
    (htag : readBytesAt data lump.fileofs 4 = some tag) (hne : tag ≠ LZMA_TAG) :
    (getLump codec hdr data i).1 = none := by
  have hno : ¬(lump.fileofs = 0 ∨ lump.filelen = 0) := by
    intro hc; cases hc <;> contradiction
  simp only [getLump, hl, if_neg hno, if_pos hu, htag, if_pos hne]

/-- C2 witness: a compressed entry whose block starts with `"FAKE"` instead of
`"LZMA"` resolves to `None`. -/
theorem c2_tag_mismatch_rejected_witness :
    (getLump takeCodec ⟨0, 0, [⟨1, 12, 0, 5⟩], 0⟩
        [9, 70, 65, 75, 69, 5, 0, 0, 0, 0, 0, 0, 0, 1, 2, 3] 0).1 = none :=
  c2_tag_mismatch_rejected takeCodec ⟨0, 0, [⟨1, 12, 0, 5⟩], 0⟩
    [9, 70, 65, 75, 69, 5, 0, 0, 0, 0, 0, 0, 0, 1, 2, 3] 0 ⟨1, 12, 0, 5⟩
    [70, 65, 75, 69] rfl (by decide) (by decide) (by decide) (by decide) (by decide)

/-- C2 counterexample to the claim as stated: the tag-mismatch outcome is not
a distinguishable error value — on this source, ordinal 0 (a compressed entry
whose block starts with `"FAKE"`) and ordinal 1 (an absent entry) resolve to
the very same `none` value. -/
theorem c2_counterexample :
    (getLump takeCodec ⟨0, 0, [⟨1, 12, 0, 5⟩, ⟨0, 0, 0, 0⟩], 0⟩
        [9, 70, 65, 75, 69, 5, 0, 0, 0, 0, 0, 0, 0, 1, 2, 3] 0).1 = none ∧
    (getLump takeCodec ⟨0, 0, [⟨1, 12, 0, 5⟩, ⟨0, 0, 0, 0⟩], 0⟩
        [9, 70, 65, 75, 69, 5, 0, 0, 0, 0, 0, 0, 0, 1, 2, 3] 1).1 = none ∧
    (getLump takeCodec ⟨0, 0, [⟨1, 12, 0, 5⟩, ⟨0, 0, 0, 0⟩], 0⟩
        [9, 70, 65, 75, 69, 5, 0, 0, 0, 0, 0, 0, 0, 1, 2, 3] 0).1 =
      (getLump takeCodec ⟨0, 0, [⟨1, 12, 0, 5⟩, ⟨0, 0, 0, 0⟩], 0⟩
        [9, 70, 65, 75, 69, 5, 0, 0, 0, 0, 0, 0, 0, 1, 2, 3] 1).1 := by
  refine ⟨rfl, rfl, rfl⟩

/-- C5 (amended): lump resolution has a two-valued `Option` outcome, not a
three-valued one.  A short read on the raw path produces `None` — the very
same value the absent signal uses for unused lumps — so I/O failures are not
distinguishable by the caller from absence.  (Seek failures cannot occur on a
byte source: seeking a `File`/`Cursor` to any absolute offset succeeds.) -/
theorem c5_failure_collapses_to_none (codec : LzmaCodec) (hdr : BspHeader)
    (data : List Nat) (i : Nat) (lump : LumpInfo)
    (hl : hdr.lumps[i]? = some lump) (ho : lump.fileofs ≠ 0)
    (hf : lump.filelen ≠ 0) (hu : lump.uncompressed_size = 0)
    (hshort : data.length < lump.fileofs + lump.filelen) :
    (getLump codec hdr data i).1 = none ∧
    ∀ (hdr2 : BspHeader) (data2 : List Nat) (j : Nat) (lump2 : LumpInfo),
      hdr2.lumps[j]? = some lump2 → (lump2.fileofs = 0 ∨ lump2.filelen = 0) →
      (getLump codec hdr2 data2 j).1 = (getLump codec hdr data i).1 := by
  have hno : ¬(lump.fileofs = 0 ∨ lump.filelen = 0) := by
    intro hc; cases hc <;> contradiction
  have hnu : ¬(lump.uncompressed_size ≠ 0) := by simp [hu]
  have hfit : ¬(lump.fileofs + lump.filelen ≤ data.length) := by omega
  have hmain : (getLump codec hdr data i).1 = none := by
    simp only [getLump, hl, if_neg hno, if_neg hnu, readBytesAt, if_neg hfit]
  refine ⟨hmain, ?_⟩
  intro hdr2 data2 j lump2 hl2 habs
  rw [hmain]
  simp only [getLump, hl2, if_pos habs]

/-- C5 witness: a raw entry declaring 10 bytes at offset 5 over a six-byte
source fails with `None`, and an absent entry in another directory yields the
same value. -/
theorem c5_failure_collapses_to_none_witness :
    (getLump takeCodec ⟨0, 0, [⟨5, 10, 0, 0⟩], 0⟩ [1, 2, 3, 4, 5, 6] 0).1 = none ∧
    (getLump takeCodec ⟨0, 0, [⟨0, 0, 0, 0⟩], 0⟩ [] 0).1 =
      (getLump takeCodec ⟨0, 0, [⟨5, 10, 0, 0⟩], 0⟩ [1, 2, 3, 4, 5, 6] 0).1 := by
  have h := c5_failure_collapses_to_none takeCodec ⟨0, 0, [⟨5, 10, 0, 0⟩], 0⟩
    [1, 2, 3, 4, 5, 6] 0 ⟨5, 10, 0, 0⟩ rfl (by decide) (by decide) rfl (by decide)
  exact ⟨h.1, h.2 ⟨0, 0, [⟨0, 0, 0, 0⟩], 0⟩ [] 0 ⟨0, 0, 0, 0⟩ rfl (Or.inl rfl)⟩

/-- C5 counterexample to the claim as stated: there is no error value
distinguishable from the Absent value — on this source a failing resolution
(ordinal 0: raw entry whose declared range extends past end of file) and an
absent lump (ordinal 1: zero offset and length) return the identical `none`
result. -/
theorem c5_counterexample :
    (getLump takeCodec ⟨0, 0, [⟨5, 10, 0, 0⟩, ⟨0, 0, 0, 0⟩], 0⟩
        [1, 2, 3, 4, 5, 6] 0).1 = none ∧
    (getLump takeCodec ⟨0, 0, [⟨5, 10, 0, 0⟩, ⟨0, 0, 0, 0⟩], 0⟩
        [1, 2, 3, 4, 5, 6] 1).1 = none ∧
    (getLump takeCodec ⟨0, 0, [⟨5, 10, 0, 0⟩, ⟨0, 0, 0, 0⟩], 0⟩
        [1, 2, 3, 4, 5, 6] 0).1 =
      (getLump takeCodec ⟨0, 0, [⟨5, 10, 0, 0⟩, ⟨0, 0, 0, 0⟩], 0⟩
        [1, 2, 3, 4, 5, 6] 1).1 := by
  refine ⟨rfl, rfl, rfl⟩

theorem getLump_compressed_fst (codec : LzmaCodec) (hdr : BspHeader)
    (data : List Nat) (i : Nat) (lump : LumpInfo)
    (hl : hdr.lumps[i]? = some lump) (ho : lump.fileofs ≠ 0)
    (hf : lump.filelen ≠ 0) (hu : lump.uncompressed_size ≠ 0)
    (htag : readBytesAt data lump.fileofs 4 = some LZMA_TAG)
    (hsz : lump.fileofs + 12 ≤ data.length) :
    (getLump codec hdr data i).1 =
      codec.decompress (data.drop (lump.fileofs + 12)) (u32At data (lump.fileofs + 4)) := by
  have hno : ¬(lump.fileofs = 0 ∨ lump.filelen = 0) := by
    intro hc; cases hc <;> contradiction
  have hne : ¬(LZMA_TAG ≠ LZMA_TAG) := by simp
  have h1 : lump.fileofs + 4 + 4 ≤ data.length := by omega
  have h2 : lump.fileofs + 4 + 4 + 4 ≤ data.length := by omega
  have e2 : lump.fileofs + 4 + 4 + 4 = lump.fileofs + 12 := by omega
  simp only [getLump, hl, if_neg hno, if_pos hu, htag, if_neg hne, parseU32,
    if_pos h1, if_pos h2, e2]
  cases hc : codec.decompress (data.drop (lump.fileofs + 12)) (u32At data (lump.fileofs + 4)) with
  | none => rfl
  | some buf => rfl

/-- C7: on the compressed path the decompressor is invoked with the remaining
stream and an unpacked-size target equal to the 32-bit size read from the
block wrapper at `fileofs + 4`, and the resolution result is exactly the codec
result — in particular any codec failure makes the whole resolution `None`, so
no partially decompressed buffer is ever returned to the caller. -/
theorem c7_codec_stops_at_declared_size (codec : LzmaCodec) (hdr : BspHeader)
    (data : List Nat) (i : Nat) (lump : LumpInfo)
    (hl : hdr.lumps[i]? = some lump) (ho : lump.fileofs ≠ 0)
    (hf : lump.filelen ≠ 0) (hu : lump.uncompressed_size ≠ 0)
    (htag : readBytesAt data lump.fileofs 4 = some LZMA_TAG)
    (hsz : lump.fileofs + 12 ≤ data.length) :
    (getLump codec hdr data i).1 =
      codec.decompress (data.drop (lump.fileofs + 12)) (u32At data (lump.fileofs + 4)) ∧
    (codec.decompress (data.drop (lump.fileofs + 12)) (u32At data (lump.fileofs + 4)) = none →
      (getLump codec hdr data i).1 = none) := by
  have h := getLump_compressed_fst codec hdr data i lump hl ho hf hu htag hsz
  exact ⟨h, fun hc => by rw [h, hc]⟩

/-- C7 witness: on a concrete compressed lump the resolution result equals the
codec applied to the remaining stream with the wrapper's declared size 2, and
with a codec that always fails the resolution is `None`. -/
theorem c7_codec_stops_at_declared_size_witness :
    ((getLump takeCodec ⟨0, 0, [⟨1, 12, 0, 5⟩], 0⟩
        [9, 76, 90, 77, 65, 2, 0, 0, 0, 0, 0, 0, 0, 7, 7] 0).1 =
      takeCodec.decompress
        ([9, 76, 90, 77, 65, 2, 0, 0, 0, 0, 0, 0, 0, 7, 7].drop (1 + 12))
        (u32At [9, 76, 90, 77, 65, 2, 0, 0, 0, 0, 0, 0, 0, 7, 7] (1 + 4))) ∧
    (getLump ⟨fun _ _ => none⟩ ⟨0, 0, [⟨1, 12, 0, 5⟩], 0⟩
        [9, 76, 90, 77, 65, 2, 0, 0, 0, 0, 0, 0, 0, 7, 7] 0).1 = none := by
  constructor
  · exact (c7_codec_stops_at_declared_size takeCodec ⟨0, 0, [⟨1, 12, 0, 5⟩], 0⟩
      [9, 76, 90, 77, 65, 2, 0, 0, 0, 0, 0, 0, 0, 7, 7] 0 ⟨1, 12, 0, 5⟩ rfl
      (by decide) (by decide) (by decide) (by decide) (by decide)).1
  · exact (c7_codec_stops_at_declared_size ⟨fun _ _ => none⟩ ⟨0, 0, [⟨1, 12, 0, 5⟩], 0⟩
      [9, 76, 90, 77, 65, 2, 0, 0, 0, 0, 0, 0, 0, 7, 7] 0 ⟨1, 12, 0, 5⟩ rfl
      (by decide) (by decide) (by decide) (by decide) (by decide)).2 rfl

/-- C1 (amended): for a codec obeying the `lzma_rs` success contract, every
buffer returned by a successful compressed-path resolution has length equal to
the 32-bit decompressed size read from the block wrapper at `fileofs + 4`
(`actual_size`); it equals the directory entry's `uncompressed_size` field
exactly when those two declared sizes agree — `get_lump` never consults
`uncompressed_size` for the target length. -/
theorem c1_length_eq_wrapper_size (codec : LzmaCodec) (hex : codec.Exact)
    (hdr : BspHeader) (data : List Nat) (i : Nat) (lump : LumpInfo)
    (buf : List Nat) (hl : hdr.lumps[i]? = some lump)
    (hu : lump.uncompressed_size ≠ 0)
    (hres : (getLump codec hdr data i).1 = some buf) :
    buf.length = u32At data (lump.fileofs + 4) ∧
    (u32At data (lump.fileofs + 4) = lump.uncompressed_size →
      buf.length = lump.uncompressed_size) := by
  by_cases hno : lump.fileofs = 0 ∨ lump.filelen = 0
  · rw [c3_absent_no_io codec hdr data i lump hl hno] at hres
    cases hres
  · simp only [getLump, hl, if_neg hno, if_pos hu] at hres
    rcases h4 : readBytesAt data lump.fileofs 4 with _ | tag
    · simp [h4] at hres
    · simp only [h4] at hres
      by_cases htag : tag ≠ LZMA_TAG
      · rw [if_pos htag] at hres
        simp at hres
      · rw [if_neg htag] at hres
        rcases hp1 : parseU32 data (lump.fileofs + 4) with _ | ⟨a, p1⟩
        · simp [hp1] at hres
        · simp only [hp1] at hres
          have ha : a = u32At data (lump.fileofs + 4) := by
            simp only [parseU32] at hp1
            by_cases hc : lump.fileofs + 4 + 4 ≤ data.length
            · rw [if_pos hc] at hp1
              cases hp1
              rfl
            · rw [if_neg hc] at hp1
              cases hp1
          rcases hp2 : parseU32 data p1 with _ | ⟨b, p2⟩
          · simp [hp2] at hres
          · simp only [hp2] at hres
            rcases hc : codec.decompress (data.drop p2) a with _ | out
            · simp [hc] at hres
            · simp only [hc] at hres
              have hbuf : out = buf := by
                simpa using hres
              have hlen := hex (data.drop p2) a out hc
              rw [hbuf] at hlen
              rw [← ha]
              exact ⟨hlen, fun he => by rw [hlen]; exact he⟩

/-- C1 witness: with the wrapper declaring size 2 and the directory entry also
declaring `uncompressed_size = 2`, the resolved buffer `[7, 7]` has length
equal to the wrapper size and to the entry's `uncompressed_size`. -/
theorem c1_length_eq_wrapper_size_witness :
    ([7, 7] : List Nat).length =
      u32At [9, 76, 90, 77, 65, 2, 0, 0, 0, 0, 0, 0, 0, 7, 7]
        ((⟨1, 12, 0, 2⟩ : LumpInfo).fileofs + 4) ∧
    (u32At [9, 76, 90, 77, 65, 2, 0, 0, 0, 0, 0, 0, 0, 7, 7]
        ((⟨1, 12, 0, 2⟩ : LumpInfo).fileofs + 4) =
          (⟨1, 12, 0, 2⟩ : LumpInfo).uncompressed_size →
      ([7, 7] : List Nat).length = (⟨1, 12, 0, 2⟩ : LumpInfo).uncompressed_size) :=
  c1_length_eq_wrapper_size takeCodec takeCodec_exact ⟨0, 0, [⟨1, 12, 0, 2⟩], 0⟩
    [9, 76, 90, 77, 65, 2, 0, 0, 0, 0, 0, 0, 0, 7, 7] 0 ⟨1, 12, 0, 2⟩ [7, 7]
    rfl (by decide) rfl

/-- C1 counterexample to the claim as stated: a source whose directory entry
declares `uncompressed_size = 1` while the embedded block wrapper declares
decompressed size 2 resolves (with a codec satisfying the `lzma_rs` success
contract) to the buffer `[7, 7]` of length 2, not 1. -/
theorem c1_counterexample :
    takeCodec.Exact ∧
    (getLump takeCodec ⟨0, 0, [⟨1, 12, 0, 1⟩], 0⟩
        [9, 76, 90, 77, 65, 2, 0, 0, 0, 0, 0, 0, 0, 7, 7] 0).1 = some [7, 7] ∧
    ([7, 7] : List Nat).length ≠ (⟨1, 12, 0, 1⟩ : LumpInfo).uncompressed_size :=
  ⟨takeCodec_exact, rfl, by decide⟩

theorem readBytesAt_congr (d1 d2 : List Nat) (pos n : Nat)
    (hlen : d1.length = d2.length)
    (h : ∀ j, pos ≤ j → j < pos + n → d1[j]? = d2[j]?) :
    readBytesAt d1 pos n = readBytesAt d2 pos n := by
  unfold readBytesAt
  rw [hlen]
  by_cases hc : pos + n ≤ d2.length
  · rw [if_pos hc, if_pos hc]
    congr 1
    apply List.ext_getElem?
    intro m
    by_cases hm : m < n
    · rw [List.getElem?_take_of_lt hm, List.getElem?_take_of_lt hm,
        List.getElem?_drop, List.getElem?_drop]
      exact h (pos + m) (by omega) (by omega)
    · rw [List.getElem?_eq_none, List.getElem?_eq_none]
      · rw [List.length_take]
        omega
      · rw [List.length_take]
        omega
  · rw [if_neg hc, if_neg hc]

theorem u32At_congr (d1 d2 : List Nat) (pos : Nat)
    (h : ∀ j, pos ≤ j → j < pos + 4 → d1[j]? = d2[j]?) :
    u32At d1 pos = u32At d2 pos := by
  simp only [u32At, List.getD_eq_getElem?_getD,
    h pos (Nat.le_refl pos) (by omega), h (pos + 1) (by omega) (by omega),
    h (pos + 2) (by omega) (by omega), h (pos + 3) (by omega) (by omega)]

theorem getLump_tag_read_fail (codec : LzmaCodec) (hdr : BspHeader)
    (data : List Nat) (i : Nat) (lump : LumpInfo)
    (hl : hdr.lumps[i]? = some lump)
    (hno : ¬(lump.fileofs = 0 ∨ lump.filelen = 0))
    (hu : lump.uncompressed_size ≠ 0)
    (h4 : readBytesAt data lump.fileofs 4 = none) :
    (getLump codec hdr data i).1 = none := by
  simp only [getLump, hl, if_neg hno, if_pos hu, h4]

theorem getLump_tag_mismatch (codec : LzmaCodec) (hdr : BspHeader)
    (data : List Nat) (i : Nat) (lump : LumpInfo) (tag : List Nat)
    (hl : hdr.lumps[i]? = some lump)
    (hno : ¬(lump.fileofs = 0 ∨ lump.filelen = 0))
    (hu : lump.uncompressed_size ≠ 0)
    (h4 : readBytesAt data lump.fileofs 4 = some tag) (hne : tag ≠ LZMA_TAG) :
    (getLump codec hdr data i).1 = none := by
  simp only [getLump, hl, if_neg hno, if_pos hu, h4, if_pos hne]

theorem getLump_wrapper_short (codec : LzmaCodec) (hdr : BspHeader)
    (data : List Nat) (i : Nat) (lump : LumpInfo)
    (hl : hdr.lumps[i]? = some lump)
    (hno : ¬(lump.fileofs = 0 ∨ lump.filelen = 0))
    (hu : lump.uncompressed_size ≠ 0)
    (h4 : readBytesAt data lump.fileofs 4 = some LZMA_TAG)
    (hshort : data.length < lump.fileofs + 12) :
    (getLump codec hdr data i).1 = none := by
  have hne : ¬(LZMA_TAG ≠ LZMA_TAG) := by simp
  simp only [getLump, hl, if_neg hno, if_pos hu, h4, if_neg hne]
  by_cases c1 : lump.fileofs + 4 + 4 ≤ data.length
  · have c2 : ¬(lump.fileofs + 4 + 4 + 4 ≤ data.length) := by omega
    simp only [parseU32, if_pos c1, if_neg c2]
  · simp only [parseU32, if_neg c1]

/-- C9: two sources of the same length that agree on every byte outside the
wrapper's 32-bit compressed-stream size field (bytes `fileofs + 8` up to
`fileofs + 12`) resolve a compressed entry to identical results: the
`lzma_size` field is read but its value never influences the returned
bytes. -/
theorem c9_lzma_size_advisory (codec : LzmaCodec) (hdr : BspHeader)
    (d1 d2 : List Nat) (i : Nat) (lump : LumpInfo)
    (hl : hdr.lumps[i]? = some lump) (hu : lump.uncompressed_size ≠ 0)
    (hlen : d1.length = d2.length)
    (hagree : ∀ j, j < d1.length →
      (j < lump.fileofs + 8 ∨ lump.fileofs + 12 ≤ j) → d1[j]? = d2[j]?) :
    (getLump codec hdr d1 i).1 = (getLump codec hdr d2 i).1 := by
  have hag : ∀ j, (j < lump.fileofs + 8 ∨ lump.fileofs + 12 ≤ j) →
      d1[j]? = d2[j]? := by
    intro j hj
    by_cases hjl : j < d1.length
    · exact hagree j hjl hj
    · rw [List.getElem?_eq_none (by omega), List.getElem?_eq_none (by omega)]
  by_cases hno : lump.fileofs = 0 ∨ lump.filelen = 0
  · simp only [getLump, hl, if_pos hno]
  · have htag_eq : readBytesAt d1 lump.fileofs 4 = readBytesAt d2 lump.fileofs 4 :=
      readBytesAt_congr d1 d2 lump.fileofs 4 hlen
        (fun j h1 h2 => hag j (Or.inl (by omega)))
    rcases h4 : readBytesAt d2 lump.fileofs 4 with _ | tag
    · rw [getLump_tag_read_fail codec hdr d1 i lump hl hno hu (htag_eq.trans h4),
        getLump_tag_read_fail codec hdr d2 i lump hl hno hu h4]
    · by_cases htg : tag = LZMA_TAG
      · subst htg
        by_cases hsz : lump.fileofs + 12 ≤ d1.length
        · rw [getLump_compressed_fst codec hdr d1 i lump hl
            (fun hz => hno (Or.inl hz)) (fun hz => hno (Or.inr hz)) hu
            (htag_eq.trans h4) hsz,
            getLump_compressed_fst codec hdr d2 i lump hl
            (fun hz => hno (Or.inl hz)) (fun hz => hno (Or.inr hz)) hu h4
            (by omega)]
          have hdrop : d1.drop (lump.fileofs + 12) = d2.drop (lump.fileofs + 12) := by
            apply List.ext_getElem?
            intro m
            rw [List.getElem?_drop, List.getElem?_drop]
            exact hag (lump.fileofs + 12 + m) (Or.inr (by omega))
          have hu32 : u32At d1 (lump.fileofs + 4) = u32At d2 (lump.fileofs + 4) :=
            u32At_congr d1 d2 (lump.fileofs + 4)
              (fun j h1 h2 => hag j (Or.inl (by omega)))
          rw [hdrop, hu32]
        · rw [getLump_wrapper_short codec hdr d1 i lump hl hno hu
            (htag_eq.trans h4) (by omega),
            getLump_wrapper_short codec hdr d2 i lump hl hno hu h4 (by omega)]
      · rw [getLump_tag_mismatch codec hdr d1 i lump tag hl hno hu
          (htag_eq.trans h4) htg,
          getLump_tag_mismatch codec hdr d2 i lump tag hl hno hu h4 htg]

/-- C9 witness: two concrete sources differing only in the four bytes of the
wrapper's compressed-stream size field resolve the compressed entry at
ordinal 0 to the same result. -/
theorem c9_lzma_size_advisory_witness :
    (getLump takeCodec ⟨0, 0, [⟨1, 12, 0, 5⟩], 0⟩
        [9, 76, 90, 77, 65, 2, 0, 0, 0, 0, 0, 0, 0, 7, 7] 0).1 =
      (getLump takeCodec ⟨0, 0, [⟨1, 12, 0, 5⟩], 0⟩
        [9, 76, 90, 77, 65, 2, 0, 0, 0, 255, 254, 253, 252, 7, 7] 0).1 :=
  c9_lzma_size_advisory takeCodec ⟨0, 0, [⟨1, 12, 0, 5⟩], 0⟩
    [9, 76, 90, 77, 65, 2, 0, 0, 0, 0, 0, 0, 0, 7, 7]
    [9, 76, 90, 77, 65, 2, 0, 0, 0, 255, 254, 253, 252, 7, 7] 0 ⟨1, 12, 0, 5⟩
    rfl (by decide) (by decide) (by decide)

/-- C10: lump resolution is total over the embedding — for every ordinal
(including out-of-range ones) and every source content, `getLump` yields a
value of its `Option` result type: an out-of-range ordinal is handled by the
bounds-checked directory lookup and gives `none` with no source access, and
otherwise the result is either `none` or `some` buffer, never an unchecked
failure. -/
theorem c10_total (codec : LzmaCodec) (hdr : BspHeader) (data : List Nat)
    (i : Nat) :
    (hdr.lumps.length ≤ i → getLump codec hdr data i = (none, [])) ∧
    ((getLump codec hdr data i).1 = none ∨
      ∃ buf, (getLump codec hdr data i).1 = some buf) := by
  constructor
  · intro hge
    simp only [getLump, List.getElem?_eq_none hge]
  · cases h : (getLump codec hdr data i).1 with
    | none => exact Or.inl rfl
    | some buf => exact Or.inr ⟨buf, rfl⟩

/-- C10 witness: ordinal 64 on a one-entry directory resolves to `none` with
no source access, and an in-range raw entry resolves to a `some` buffer. -/
theorem c10_total_witness :
    getLump takeCodec ⟨0, 0, [⟨1, 3, 0, 0⟩], 0⟩ [10, 20, 30, 40] 64 = (none, []) ∧
    ((getLump takeCodec ⟨0, 0, [⟨1, 3, 0, 0⟩], 0⟩ [10, 20, 30, 40] 0).1 = none ∨
      ∃ buf, (getLump takeCodec ⟨0, 0, [⟨1, 3, 0, 0⟩], 0⟩ [10, 20, 30, 40] 0).1 =
        some buf) :=
  ⟨(c10_total takeCodec ⟨0, 0, [⟨1, 3, 0, 0⟩], 0⟩ [10, 20, 30, 40] 64).1
      (by decide),
    (c10_total takeCodec ⟨0, 0, [⟨1, 3, 0, 0⟩], 0⟩ [10, 20, 30, 40] 0).2⟩

/-- C8: when the pak buffer parses as a valid archive with `n` entries, the
`"files"` interpretation yields exactly the `n` pairs (entry name, CRC-32),
one per contained entry in order, without touching entry contents; when the
buffer is not a valid archive it fails with `none`. -/
theorem c8_pak_listing (zm : ZipModel) (buf : List Nat) :
    (∀ entries, zm.parse buf = some entries →
      listPakFiles zm buf = some (entries.map fun e => (e.name, e.crc32)) ∧
      (entries.map fun e => (e.name, e.crc32)).length = entries.length) ∧
    (zm.parse buf = none → listPakFiles zm buf = none) := by
  constructor
  · intro entries hp
    constructor
    · simp only [listPakFiles, hp]
      congr 1
      apply List.ext_getElem?
      intro m
      by_cases hm : m < entries.length
      · simp only [List.getElem?_map, List.getElem?_range hm,
          List.getElem?_eq_getElem hm, Option.map_some', List.getD_eq_getElem?_getD,
          Option.getD_some]
      · rw [List.getElem?_eq_none, List.getElem?_eq_none]
        · rw [List.length_map]
          omega
        · rw [List.length_map, List.length_range]
          omega
    · rw [List.length_map]
  · intro hp
    simp only [listPakFiles, hp]

/-- C8 witness: a model archive with two entries lists exactly their
(name, CRC-32) pairs, and a buffer its parser rejects yields `none`. -/
theorem c8_pak_listing_witness :
    listPakFiles
      ⟨fun b => if b = [1] then some [⟨[97], 17⟩, ⟨[98], 23⟩] else none⟩ [1] =
      some [([97], 17), ([98], 23)] ∧
    listPakFiles
      ⟨fun b => if b = [1] then some [⟨[97], 17⟩, ⟨[98], 23⟩] else none⟩ [2] =
      none := by
  constructor
  · exact ((c8_pak_listing
      ⟨fun b => if b = [1] then some [⟨[97], 17⟩, ⟨[98], 23⟩] else none⟩ [1]).1
      [⟨[97], 17⟩, ⟨[98], 23⟩] (by decide)).1
  · exact (c8_pak_listing
      ⟨fun b => if b = [1] then some [⟨[97], 17⟩, ⟨[98], 23⟩] else none⟩ [2]).2
      (by decide)
